import Mathlib

/-!
Verification of the torchrec sparse-data-dist train-pipeline utilities
(`torchrec/distributed/train_pipeline/utils.py`) and the session-level
precision metric (`torchrec/metrics/precision_session.py`).

The Python source is shallowly embedded: Python values flowing through
`ArgInfo` resolution steps become the inductive `PyVal`; Python dicts keyed
by module fully-qualified names become association lists; exceptions become
`Except PyErr`; the mutable orchestrator objects become explicit state
records transformed by pure functions.
-/

/-- Python exceptions raised by the embedded code paths. -/
inductive PyErr
  | assertionError
  | keyError
  | attributeError
  | typeError
  | indexError
deriving DecidableEq, Repr

/-- A fragment of the Python value universe sufficient for the values an
`ArgInfo` step chain manipulates: `None`, ints, strings, objects with named
attributes (for `getattr`), lists (for integer `getitem`) and string-keyed
dicts (for string `getitem`). -/

inductive PyVal
  | none
  | int (n : Int)
  | str (s : String)
  | obj (attrs : List (String × PyVal))
  | list (xs : List PyVal)
  | dict (entries : List (String × PyVal))

/-- First-match lookup in an association list (Python attribute / dict access). -/
def lookupStr {α : Type} : List (String × α) → String → Option α
  | [], _ => Option.none
  | (k, v) :: rest, key => if k = key then Option.some v else lookupStr rest key

/-- `getattr(arg, attr_name)`: attribute lookup on a Python object. -/
def pyGetAttr (v : PyVal) (name : String) : Except PyErr PyVal :=
  match v with
  | .obj attrs =>
    match lookupStr attrs name with
    | Option.some r => .ok r
    | Option.none => .error .attributeError
  | _ => .error .attributeError

/-- `arg[i]` for an integer index on a Python list (with negative indexing). -/
def pyGetItemInt (v : PyVal) (i : Int) : Except PyErr PyVal :=
  match v with
  | .list xs =>
    let j : Int := if i < 0 then i + xs.length else i
    if h : 0 ≤ j ∧ j < xs.length then
      .ok (xs.get ⟨j.toNat, by omega⟩)
    else
      .error .indexError
  | _ => .error .typeError

/-- `arg[k]` for a string key on a Python dict. -/
def pyGetItemStr (v : PyVal) (k : String) : Except PyErr PyVal :=
  match v with
  | .dict entries =>
    match lookupStr entries k with
    | Option.some r => .ok r
    | Option.none => .error .keyError
  | _ => .error .typeError

/-- The `BaseArgInfoStep` subclasses used to rebuild sharded-module
arguments from a raw batch: `NoopArgInfoStep`, `GetAttrArgInfoStep`,
`GetItemArgInfoStep` (string or int index, mirroring `Union[str, int]`),
and `ScalarArgInfoStep`. -/

inductive ArgInfoStep
  | noop
  | get_attr (attr_name : String)
  | get_item_str (item_index : String)
  | get_item_int (item_index : Int)
  | scalar (value : PyVal)

/-- `BaseArgInfoStep.process` for each concrete step class:
`NoopArgInfoStep.process` returns the argument, `GetAttrArgInfoStep.process`
is `getattr`, `GetItemArgInfoStep.process` is indexing, and
`ScalarArgInfoStep.process` returns the stored value ignoring the input. -/

def ArgInfoStep.process : ArgInfoStep → PyVal → Except PyErr PyVal
  | .noop, arg => .ok arg
  | .get_attr name, arg => pyGetAttr arg name
  | .get_item_str k, arg => pyGetItemStr arg k
  | .get_item_int i, arg => pyGetItemInt arg i
  | .scalar v, _ => .ok v

/-- `ArgInfo`: an ordered list of resolution steps. -/
structure ArgInfo where
  steps : List ArgInfoStep

/-- The loop body of `ArgInfo.process_steps`:
`for step in self.steps: arg = step.process(arg)`, propagating any raised
exception. -/

def stepsLoop : List ArgInfoStep → PyVal → Except PyErr PyVal
  | [], arg => .ok arg
  | s :: rest, arg =>
    match s.process arg with
    | .error e => .error e
    | .ok v => stepsLoop rest v

/-- `ArgInfo.process_steps`: returns `None` when the step list is empty,
otherwise threads the argument through the steps in order. -/

def ArgInfo.process_steps (info : ArgInfo) (arg : PyVal) : Except PyErr PyVal :=
  if info.steps.isEmpty then .ok PyVal.none
  else stepsLoop info.steps arg

/-- `CallArgs`: positional and keyword argument descriptors for one call. -/
structure CallArgs where
  args : List ArgInfo
  kwargs : List (String × ArgInfo)

/-- The list comprehension `[arg.process_steps(initial_input) for arg in self.args]`:
each descriptor is applied independently to the same initial input, with the
first raised exception propagating. -/

def buildArgsList : List ArgInfo → PyVal → Except PyErr (List PyVal)
  | [], _ => .ok []
  | a :: rest, input =>
    match a.process_steps input with
    | .error e => .error e
    | .ok v =>
      match buildArgsList rest input with
      | .error e => .error e
      | .ok vs => .ok (v :: vs)

/-- The dict comprehension over `self.kwargs.items()` in `build_args_kwargs`. -/
def buildKwargsList : List (String × ArgInfo) → PyVal → Except PyErr (List (String × PyVal))
  | [], _ => .ok []
  | (k, a) :: rest, input =>
    match a.process_steps input with
    | .error e => .error e
    | .ok v =>
      match buildKwargsList rest input with
      | .error e => .error e
      | .ok vs => .ok ((k, v) :: vs)

/-- `CallArgs.build_args_kwargs`: rebuilds the positional and keyword
arguments from the initial input. -/

def CallArgs.build_args_kwargs (c : CallArgs) (initial_input : PyVal) :
    Except PyErr (List PyVal × List (String × PyVal)) :=
  match buildArgsList c.args initial_input with
  | .error e => .error e
  | .ok args =>
    match buildKwargsList c.kwargs initial_input with
    | .error e => .error e
    | .ok kwargs => .ok (args, kwargs)

-- Basic lemmas about the step chain.

def PipelinedPostproc.forward
    (fqn : String) (args : CallArgs)
    (postproc_module : List PyVal → List (String × PyVal) → PyVal)
    (postproc_fwd_results : List (String × PyVal)) (input : PyVal) :
    Except PyErr (PyVal × List (String × PyVal) × Nat) :=
  match lookupStr postproc_fwd_results fqn with
  | Option.some res => .ok (res, postproc_fwd_results, 0)
  | Option.none =>
    match args.build_args_kwargs input with
    | .error e => .error e
    | .ok (a, kw) =>
      let res := postproc_module a kw
      .ok (res, postproc_fwd_results ++ [(fqn, res)], 1)

/-- Remove the first binding of `k` (Python `dict.pop(k)` key removal). -/
def eraseKey {α : Type} : List (String × α) → String → List (String × α)
  | [], _ => []
  | (k, v) :: rest, key => if k = key then rest else (k, v) :: eraseKey rest key

/-- The maps of a `TrainPipelineContext` read by `PipelinedForward.__call__`:
`input_dist_tensors_requests` and `module_contexts`. `Req` is the awaitable
request type, `MCtx` the per-module execution context type. -/

structure SyncFwdContext (Req MCtx : Type) where
  input_dist_tensors_requests : List (String × Req)
  module_contexts : List (String × MCtx)

/-- The maps of a `PrefetchTrainPipelineContext` read by
`PrefetchPipelinedForward.__call__`: `module_input_post_prefetch` and
`module_contexts_post_prefetch`. -/

structure PrefetchFwdContext (Data MCtx : Type) where
  module_input_post_prefetch : List (String × Data)
  module_contexts_post_prefetch : List (String × MCtx)

/-- `PipelinedForward.__call__`: asserts the module name is a pending key of
`input_dist_tensors_requests` (raising `AssertionError` otherwise), pops the
request, waits on it, pops the module context (a missing key is a Python
`KeyError`), and returns `compute_and_output_dist(ctx, data)` together with
the updated context. -/

def PipelinedForward.call {Req MCtx Data Out : Type}
    (name : String)
    (wait : Req → Data)
    (compute_and_output_dist : MCtx → Data → Out)
    (ctx : SyncFwdContext Req MCtx) :
    Except PyErr (Out × SyncFwdContext Req MCtx) :=
  match lookupStr ctx.input_dist_tensors_requests name with
  | Option.none => .error .assertionError
  | Option.some request =>
    let data := wait request
    match lookupStr ctx.module_contexts name with
    | Option.none => .error .keyError
    | Option.some mctx =>
      .ok (compute_and_output_dist mctx data,
        { input_dist_tensors_requests := eraseKey ctx.input_dist_tensors_requests name,
          module_contexts := eraseKey ctx.module_contexts name })

/-- `PrefetchPipelinedForward.__call__`: asserts the module name is a key of
`module_input_post_prefetch` (raising `AssertionError` otherwise), pops the
data and the post-prefetch module context, and returns
`compute_and_output_dist(ctx, data)` with the updated context. -/

def PrefetchPipelinedForward.call {MCtx Data Out : Type}
    (name : String)
    (compute_and_output_dist : MCtx → Data → Out)
    (ctx : PrefetchFwdContext Data MCtx) :
    Except PyErr (Out × PrefetchFwdContext Data MCtx) :=
  match lookupStr ctx.module_input_post_prefetch name with
  | Option.none => .error .assertionError
  | Option.some data =>
    match lookupStr ctx.module_contexts_post_prefetch name with
    | Option.none => .error .keyError
    | Option.some mctx =>
      .ok (compute_and_output_dist mctx data,
        { module_input_post_prefetch := eraseKey ctx.module_input_post_prefetch name,
          module_contexts_post_prefetch := eraseKey ctx.module_contexts_post_prefetch name })

/-!
## `_rewrite_model` node loop

The fx graph is embedded as a list of nodes carrying the operation kind, the
target (module fqn for `call_module` nodes) and the sizes of `node.args` /
`node.kwargs`. The argument-resolution machinery (`NodeArgsHelper.get_node_args`)
is abstracted by a function `num_found` giving, for each node, the number of
resolved arguments it reports; the claim under study is conditional on that
count, so the loop's dispatch is what is embedded.
-/

/-- One node of the traced fx graph, as consumed by the `_rewrite_model`
loop: `node.op`, `node.target`, and the count of `node.args` / `node.kwargs`. -/

structure FxNode where
  op : String
  target : String
  num_args : Nat
  num_kwargs : Nat
deriving DecidableEq, Repr

/-- Accumulator of the `_rewrite_model` node loop: the fqns of modules whose
forward was swapped for the pipelined forward (`pipelined_forwards`, with
`original_forwards` saved alongside), and the fqns reported not pipelined
(`non_pipelined_sharded_modules`). -/

structure RewriteAcc where
  pipelined_forwards : List String
  non_pipelined_sharded_modules : List String
deriving DecidableEq, Repr

/-- One iteration of the `for node in graph.nodes` loop of `_rewrite_model`:
skip nodes that are not `call_module` on a sharded module; skip (with only a
log warning) sharded-module nodes with zero args and kwargs; otherwise
pipeline the module when `num_found` equals the total argument count and
record it as non-pipelined when it does not. -/

def rewriteModelStep (sharded_modules : List String) (num_found : FxNode → Nat)
    (acc : RewriteAcc) (node : FxNode) : RewriteAcc :=
  if node.op ≠ "call_module" ∨ node.target ∉ sharded_modules then acc
  else
    let total_num_args := node.num_args + node.num_kwargs
    if total_num_args = 0 then acc
    else if num_found node = total_num_args then
      { acc with pipelined_forwards := acc.pipelined_forwards ++ [node.target] }
    else
      { acc with non_pipelined_sharded_modules :=
          acc.non_pipelined_sharded_modules ++ [node.target] }

/-- The full `_rewrite_model` node loop over the traced graph. -/
def rewriteModelLoop (sharded_modules : List String) (num_found : FxNode → Nat)
    (nodes : List FxNode) : RewriteAcc :=
  nodes.foldl (rewriteModelStep sharded_modules num_found)
    { pipelined_forwards := [], non_pipelined_sharded_modules := [] }

structure SddCtxState where
  with_prefetch : Bool
  next_index : Nat
  contexts : List Int
  module_fwd_contexts : List Int
  postproc_contexts : List Int
deriving DecidableEq, Repr

/-- `_add_context`: append `_create_context(self._next_index)` at the back
of the deque and increment `_next_index`. -/

def SddCtxState.add_context (s : SddCtxState) : SddCtxState :=
  { s with contexts := s.contexts ++ [(s.next_index : Int)],
           next_index := s.next_index + 1 }

/-- `_set_module_context`: point every pipelined module forward and every
pipelined postproc at the given context. -/

def SddCtxState.set_module_context (s : SddCtxState) (c : Int) : SddCtxState :=
  { s with module_fwd_contexts := s.module_fwd_contexts.map (fun _ => c),
           postproc_contexts := s.postproc_contexts.map (fun _ => c) }

/-- `_current_context`: `self._contexts[0]` (front of the deque). -/
def SddCtxState.current_context (s : SddCtxState) : Int :=
  s.contexts.headD 0

/-- `_advance_context`: pop the front context, append a freshly created one
at the back, and re-point modules/postprocs at the new front
(`_context_for_model_forward()` is `_contexts[0]`; the debug assertions are
disabled by default, `_WITH_CONTEXT_ASSERTIONS = False`). -/

def SddCtxState.advance_context (s : SddCtxState) : SddCtxState :=
  let s1 := { s with contexts := s.contexts.tail }
  let s2 := s1.add_context
  s2.set_module_context s2.current_context

/-- The initialization path of `_initialize_or_reattach` (not reattaching):
push one throwaway context of index `-2` when prefetch is configured, one of
index `-1` always, then `_add_context()`; the rewrite points every pipelined
module forward and postproc at that last context (`_contexts[-1]`, index 0). -/

def SddCtxState.init (wp : Bool) (num_modules num_postprocs : Nat) : SddCtxState :=
  let s0 : SddCtxState :=
    { with_prefetch := wp
      next_index := 0
      contexts := (if wp then [(-2 : Int)] else []) ++ [(-1 : Int)]
      module_fwd_contexts := List.replicate num_modules 0
      postproc_contexts := List.replicate num_postprocs 0 }
  s0.add_context

/-- The mutable parts of the rewritten model touched by detaching. -/
structure PipelinedModelState where
  module_forwards : List String
  kjt_dist_forwards : List String
  postproc_slots : List (String × String)
deriving DecidableEq, Repr

/-- Replace the binding of `k` (first occurrence) with `(k, v)`. -/
def replaceSlot : List (String × String) → String → String → List (String × String)
  | [], _, _ => []
  | p :: rest, k, v => if p.1 = k then (k, v) :: rest else p :: replaceSlot rest k v

/-- `setattr(model, fqn, module)`: replace the binding when present,
create it otherwise. -/

def setAttrSlot (slots : List (String × String)) (fqn v : String) :
    List (String × String) :=
  if (lookupStr slots fqn).isSome then replaceSlot slots fqn v
  else slots ++ [(fqn, v)]

/-- `for mod, original_fwd in zip(pipelined_modules, original_forwards):
mod.forward = original_fwd` — restores forwards pairwise, truncating at the
shorter list exactly as Python `zip` does. -/

def restoreForwards : List String → List String → List String
  | fs, [] => fs
  | [], _ => []
  | _ :: fs, o :: os => o :: restoreForwards fs os

/-- `_pipeline_detach_model`: restore each pipelined module's forward and
each KJT dist forward to the saved originals (asserting the KJT dist count
matches the saved count), and `setattr` each pipelined postproc's wrapped
original module back into the model. -/

def pipeline_detach_model (m : PipelinedModelState)
    (original_forwards original_kjt_dist_forwards : List String)
    (pipelined_postprocs : List (String × String)) :
    Except PyErr PipelinedModelState :=
  if m.kjt_dist_forwards.length = original_kjt_dist_forwards.length then
    .ok { module_forwards := restoreForwards m.module_forwards original_forwards
          kjt_dist_forwards := restoreForwards m.kjt_dist_forwards original_kjt_dist_forwards
          postproc_slots :=
            pipelined_postprocs.foldl (fun acc p => setAttrSlot acc p.1 p.2) m.postproc_slots }
  else .error .assertionError

/-- The full state of a `SparseDataDistUtil` instance as far as `detach` is
concerned (`initialized` flag, forward hook handle, context deque and
`_next_index`, the model, and the saved originals). -/

structure SddUtilState where
  is_initialized : Bool
  fwd_hook : Bool
  contexts : List Int
  next_index : Nat
  model : PipelinedModelState
  original_forwards : List String
  original_kjt_dist_forwards : List String
  pipelined_postprocs : List (String × String)
deriving DecidableEq, Repr

/-- `SparseDataDistUtil.detach`: when initialized, asserts the forward hook
exists, removes it, and runs `_pipeline_detach_model`; always clears
`initialized`. `_contexts` and `_next_index` are not touched. -/

def SddUtilState.detach (s : SddUtilState) : Except PyErr SddUtilState :=
  if s.is_initialized then
    if s.fwd_hook then
      match pipeline_detach_model s.model s.original_forwards
          s.original_kjt_dist_forwards s.pipelined_postprocs with
      | .error e => .error e
      | .ok m =>
        .ok { s with is_initialized := false, fwd_hook := false, model := m }
    else .error .assertionError
  else .ok { s with is_initialized := false }

/-- Orchestration actions of `SparseDataDistUtil` relevant to ordering. -/
inductive SddEvent
  | waitSparseDataDist
  | advanceContext
  | startSparseDataDist
deriving DecidableEq, Repr

/-- The body of the post-forward hook registered in
`_initialize_or_reattach`: `self.wait_sparse_data_dist()` then
`self._advance_context()`. -/

def forwardHookTrace : List SddEvent :=
  [SddEvent.waitSparseDataDist, SddEvent.advanceContext]

/-- The body of `wait_sdd_fill_callback`: `self.wait_sparse_data_dist()`
then `self._advance_context()`. -/

def waitSddFillCallbackTrace : List SddEvent :=
  [SddEvent.waitSparseDataDist, SddEvent.advanceContext]

/-- Modelled from the spec: the `StagedTrainPipeline` driver (not part of
the analyzed sources; only `PipelineStage` and the stage callbacks live
here) runs, within one pipeline iteration, the model forward — whose
post-forward hook fires at its end — and only afterwards issues
`start_sparse_data_dist` for the next batch's context. -/

def pipelineIterationTrace : List SddEvent :=
  forwardHookTrace ++ [SddEvent.startSparseDataDist]

/-- Position of the first occurrence of an event in a trace. -/
def eventPos (trace : List SddEvent) (e : SddEvent) : Nat :=
  trace.indexOf e

/-!
## `DataLoadingThread` producer/consumer handoff

The producer is the steady-state body of `run` (the loop with `_stop`
false and the iterator yielding data); the consumer is `get_next_batch`.
Each Python statement touching shared state is one atomic step, and the two
threads interleave arbitrarily. The buffer slot `_buffered` is abstracted to
its occupancy (the batch payload does not influence control flow in the
steady state).
-/

/-- Producer program counter, following `DataLoadingThread.run`:
blocked on `self._buffer_empty_event.wait()`; about to write
`self._buffered = batch.to(...)`; about to run
`self._buffer_empty_event.clear()`; about to run
`self._buffer_filled_event.set()` (then loop back to the wait). -/

inductive ProducerPc
  | pWaitEmpty
  | pFillSlot
  | pClearEmpty
  | pSetFilled
deriving DecidableEq, Repr

/-- Consumer program counter, following `DataLoadingThread.get_next_batch`:
blocked on `self._buffer_filled_event.wait()`; about to read the batch and
run `self._buffered = None`; about to run `self._buffer_filled_event.clear()`;
about to run `self._buffer_empty_event.set()` (then return the batch). -/

inductive ConsumerPc
  | cWaitFilled
  | cTakeSlot
  | cClearFilled
  | cSetEmpty
deriving DecidableEq, Repr

/-- Shared state of the handoff: the two `threading.Event` flags and the
occupancy of the single buffer slot, plus both program counters. -/

structure DLState where
  ppc : ProducerPc
  cpc : ConsumerPc
  buffer_empty : Bool
  buffer_filled : Bool
  slot_occupied : Bool
deriving DecidableEq, Repr

/-- Initial state set up by `DataLoadingThread.__init__`: empty event set,
filled event clear, nothing buffered, both threads at their waits. -/

def dlInit : DLState :=
  { ppc := .pWaitEmpty, cpc := .cWaitFilled,
    buffer_empty := true, buffer_filled := false, slot_occupied := false }

/-- All successor states of one interleaved atomic step by either thread.
`Event.wait()` proceeds only when the flag is set and does not clear it. -/

def dlNext (s : DLState) : List DLState :=
  (match s.ppc with
   | .pWaitEmpty => if s.buffer_empty then [{ s with ppc := .pFillSlot }] else []
   | .pFillSlot => [{ s with ppc := .pClearEmpty, slot_occupied := true }]
   | .pClearEmpty => [{ s with ppc := .pSetFilled, buffer_empty := false }]
   | .pSetFilled => [{ s with ppc := .pWaitEmpty, buffer_filled := true }]) ++
  (match s.cpc with
   | .cWaitFilled => if s.buffer_filled then [{ s with cpc := .cTakeSlot }] else []
   | .cTakeSlot => [{ s with cpc := .cClearFilled, slot_occupied := false }]
   | .cClearFilled => [{ s with cpc := .cSetEmpty, buffer_filled := false }]
   | .cSetEmpty => [{ s with cpc := .cWaitFilled, buffer_empty := true }])

/-- States reachable from the initial state under arbitrary interleaving. -/
inductive DLReachable : DLState → Prop
  | init : DLReachable dlInit
  | step {s s' : DLState} : DLReachable s → s' ∈ dlNext s → DLReachable s'

/-- The inductive invariant: the eight joint configurations the handoff
cycles through. -/

def dlGood : List DLState :=
  [ { ppc := .pWaitEmpty, cpc := .cWaitFilled, buffer_empty := true, buffer_filled := false, slot_occupied := false },
    { ppc := .pFillSlot, cpc := .cWaitFilled, buffer_empty := true, buffer_filled := false, slot_occupied := false },
    { ppc := .pClearEmpty, cpc := .cWaitFilled, buffer_empty := true, buffer_filled := false, slot_occupied := true },
    { ppc := .pSetFilled, cpc := .cWaitFilled, buffer_empty := false, buffer_filled := false, slot_occupied := true },
    { ppc := .pWaitEmpty, cpc := .cWaitFilled, buffer_empty := false, buffer_filled := true, slot_occupied := true },
    { ppc := .pWaitEmpty, cpc := .cTakeSlot, buffer_empty := false, buffer_filled := true, slot_occupied := true },
    { ppc := .pWaitEmpty, cpc := .cClearFilled, buffer_empty := false, buffer_filled := true, slot_occupied := false },
    { ppc := .pWaitEmpty, cpc := .cSetEmpty, buffer_empty := false, buffer_filled := false, slot_occupied := false } ]

inductive RecComputeMode
  | fused_tasks_computation
  | fused_tasks_and_states_computation
  | unfused_tasks_computation
deriving DecidableEq, Repr

/-- `SessionMetricDef`, by the fields `PrecisionSessionMetric` reads. -/
structure SessionMetricDef where
  top_threshold : Option Int
  run_ranking_of_labels : Bool
  session_var_name : Option String
deriving DecidableEq, Repr

/-- `RecTaskInfo`, by the fields `PrecisionSessionMetric` reads. -/
structure RecTaskInfo where
  name : String
  session_metric_def : Option SessionMetricDef
deriving DecidableEq, Repr

/-- Modelled from the spec: the `RecMetric` base-class constructor (in
`torchrec/metrics/rec_metric.py`, outside the analyzed sources) stores the
validated configuration as given — the spec requires unsupported or missing
configuration to be "rejected eagerly at construction time … never silently
defaulted", so a successful construction keeps the arguments unchanged. -/

structure PrecisionSessionMetricState where
  world_size : Nat
  my_rank : Nat
  batch_size : Nat
  tasks : List RecTaskInfo
  compute_mode : RecComputeMode
  window_size : Nat
  fused_update_limit : Nat
deriving DecidableEq, Repr

/-- The `for task in tasks` validation loop of
`PrecisionSessionMetric.__init__`: the first offending task raises. -/

def checkSessionTasks : List RecTaskInfo → Option String
  | [] => Option.none
  | t :: rest =>
    match t.session_metric_def with
    | Option.none => Option.some "Please, specify the session metric definition"
    | Option.some d =>
      match d.top_threshold with
      | Option.none => Option.some "Please, specify the top threshold"
      | Option.some _ => checkSessionTasks rest

/-- `PrecisionSessionMetric.__init__`: rejects fused compute modes, then a
positive `fused_update_limit`, then any task with a missing
`session_metric_def` or `top_threshold`; otherwise forwards everything
unchanged to the base-class constructor. Errors are `RecMetricException`
messages. -/

def PrecisionSessionMetric_init (world_size my_rank batch_size : Nat)
    (tasks : List RecTaskInfo) (compute_mode : RecComputeMode)
    (window_size fused_update_limit : Nat) :
    Except String PrecisionSessionMetricState :=
  if compute_mode = RecComputeMode.fused_tasks_computation
      ∨ compute_mode = RecComputeMode.fused_tasks_and_states_computation then
    .error "Fused computation is not supported for precision session-level metrics"
  else if fused_update_limit > 0 then
    .error "Fused update is not supported for precision session-level metrics"
  else
    match checkSessionTasks tasks with
    | Option.some msg => .error msg
    | Option.none =>
      .ok { world_size := world_size, my_rank := my_rank, batch_size := batch_size,
            tasks := tasks, compute_mode := compute_mode, window_size := window_size,
            fused_update_limit := fused_update_limit }

/-- The concrete session-metric task used by the C8 witness. -/
def witnessTask : RecTaskInfo :=
  { name := "t1",
    session_metric_def := Option.some
      { top_threshold := Option.some 5,
        run_ranking_of_labels := false,
        session_var_name := Option.some "session" } }

/-- Witness for C8: a correctly configured single task (unfused mode,
`fused_update_limit = 0`, session metric definition with a top threshold)
constructs successfully with the configuration kept unchanged; a fused mode
is rejected. -/

theorem stepsLoop_append (xs ys : List ArgInfoStep) (arg : PyVal) :
    stepsLoop (xs ++ ys) arg =
      match stepsLoop xs arg with
      | .error e => .error e
      | .ok v => stepsLoop ys v := by
  induction xs generalizing arg with
  | nil => simp [stepsLoop]
  | cons s rest ih =>
    simp only [List.cons_append, stepsLoop]
    cases s.process arg with
    | error e => rfl
    | ok v => exact ih v

theorem buildArgsList_length (infos : List ArgInfo) (input : PyVal)
    (out : List PyVal) (h : buildArgsList infos input = .ok out) :
    out.length = infos.length := by
  induction infos generalizing out with
  | nil =>
    simp [buildArgsList] at h
    simp [← h]
  | cons a rest ih =>
    simp only [buildArgsList] at h
    cases ha : a.process_steps input with
    | error e => rw [ha] at h; exact absurd h (by simp)
    | ok v =>
      rw [ha] at h
      cases hrest : buildArgsList rest input with
      | error e => rw [hrest] at h; exact absurd h (by simp)
      | ok vs =>
        rw [hrest] at h
        cases h
        simp [ih vs hrest]

theorem buildArgsList_get (infos : List ArgInfo) (input : PyVal)
    (out : List PyVal) (h : buildArgsList infos input = .ok out)
    (i : Nat) (hi : i < infos.length) (ho : i < out.length) :
    (infos.get ⟨i, hi⟩).process_steps input = .ok (out.get ⟨i, ho⟩) := by
  induction infos generalizing out i with
  | nil => exact absurd hi (by simp)
  | cons a rest ih =>
    simp only [buildArgsList] at h
    cases ha : a.process_steps input with
    | error e => rw [ha] at h; exact absurd h (by simp)
    | ok v =>
      rw [ha] at h
      cases hrest : buildArgsList rest input with
      | error e => rw [hrest] at h; exact absurd h (by simp)
      | ok vs =>
        rw [hrest] at h
        cases h
        cases i with
        | zero => simpa using ha
        | succ j =>
          exact ih vs hrest j (by simpa using hi) (by simpa using ho)

/-!
## `PipelinedPostproc.forward`

The training context's `postproc_fwd_results` dict (keyed by the postproc
module's fully-qualified name) is embedded as an association list. Stream
bookkeeping (`record_function`, stream contexts, `record_stream`) has no
effect on values; it is elided. The wrapped postproc module is an arbitrary
pure function `f` of the built positional and keyword arguments. The result
additionally reports how many times the wrapped module executed.
-/

/-- `PipelinedPostproc.forward`: if `self._fqn` is already cached in
`self._context.postproc_fwd_results`, return the cached result without
running the wrapped module; otherwise build args/kwargs from `input[0]` via
`self._args`, run the wrapped module once, cache and return the result.
Returns the result, the updated `postproc_fwd_results` map, and the number
of executions of the wrapped module. -/

theorem lookupStr_append_self {α : Type} (l : List (String × α)) (k : String) (v : α)
    (h : lookupStr l k = Option.none) : lookupStr (l ++ [(k, v)]) k = Option.some v := by
  induction l with
  | nil => simp [lookupStr]
  | cons p rest ih =>
    simp only [lookupStr] at h ⊢
    by_cases hk : p.1 = k
    · rw [if_pos hk] at h; exact absurd h (by simp)
    · rw [if_neg hk] at h ⊢
      exact ih h

/-!
## Intercepting forwards: `PipelinedForward` / `PrefetchPipelinedForward`

A `TrainPipelineContext` for these calls is embedded by its two relevant
maps; the entries are opaque values. `request.wait()` and
`module.compute_and_output_dist` are external capabilities modelled as
arbitrary functions. Stream waits and `record_stream` calls do not change
values and are elided.
-/

theorem rewriteModelStep_mono (sm : List String) (nf : FxNode → Nat)
    (acc : RewriteAcc) (node : FxNode) (x : String) :
    (x ∈ acc.pipelined_forwards →
      x ∈ (rewriteModelStep sm nf acc node).pipelined_forwards) ∧
    (x ∈ acc.non_pipelined_sharded_modules →
      x ∈ (rewriteModelStep sm nf acc node).non_pipelined_sharded_modules) := by
  unfold rewriteModelStep
  split
  · exact ⟨id, id⟩
  · simp only []
    split
    · exact ⟨id, id⟩
    · split <;> constructor <;> intro hx <;> simp [hx]

theorem rewriteModelFold_mono (sm : List String) (nf : FxNode → Nat)
    (nodes : List FxNode) (acc : RewriteAcc) (x : String) :
    (x ∈ acc.pipelined_forwards →
      x ∈ (nodes.foldl (rewriteModelStep sm nf) acc).pipelined_forwards) ∧
    (x ∈ acc.non_pipelined_sharded_modules →
      x ∈ (nodes.foldl (rewriteModelStep sm nf) acc).non_pipelined_sharded_modules) := by
  induction nodes generalizing acc with
  | nil => exact ⟨id, id⟩
  | cons n rest ih =>
    refine ⟨fun hx => ?_, fun hx => ?_⟩
    · exact (ih _ ).1 ((rewriteModelStep_mono sm nf acc n x).1 hx)
    · exact (ih _ ).2 ((rewriteModelStep_mono sm nf acc n x).2 hx)

/-!
## `SparseDataDistUtil` context window

A context is represented by its integer `index` (negative for throwaway
priming contexts). The deque `_contexts` is a list whose head is the front.
The context references held by each pipelined module forward and each
pipelined postproc are tracked explicitly (as context indices), so that
`_set_module_context` is observable.
-/

/-- The context-management state of `SparseDataDistUtil`: `prefetch_stream`
presence, `_next_index`, the `_contexts` deque (head = front), and the
context index currently referenced by each pipelined module forward and each
pipelined postproc. -/

theorem advance_context_contexts (s : SddCtxState) :
    (s.advance_context).contexts = s.contexts.tail ++ [(s.next_index : Int)] := by
  rfl

theorem advance_context_length (s : SddCtxState) (h : s.contexts ≠ []) :
    (s.advance_context).contexts.length = s.contexts.length := by
  rw [advance_context_contexts]
  cases hc : s.contexts with
  | nil => exact absurd hc h
  | cons a rest => simp [hc]

theorem advance_context_prefetch (s : SddCtxState) :
    (s.advance_context).with_prefetch = s.with_prefetch := by
  rfl

theorem init_contexts_length (wp : Bool) (nm np : Nat) :
    (SddCtxState.init wp nm np).contexts.length = if wp then 3 else 2 := by
  cases wp <;> simp [SddCtxState.init, SddCtxState.add_context]

theorem iterate_advance_invariant (wp : Bool) (nm np : Nat) (n : Nat) :
    (SddCtxState.advance_context^[n] (SddCtxState.init wp nm np)).contexts.length
        = (if wp then 3 else 2)
    ∧ (SddCtxState.advance_context^[n] (SddCtxState.init wp nm np)).with_prefetch = wp := by
  induction n with
  | zero => simpa using ⟨init_contexts_length wp nm np, by cases wp <;> rfl⟩
  | succ k ih =>
    rw [Function.iterate_succ_apply']
    constructor
    · rw [advance_context_length _ (by
        intro hnil
        have := ih.1
        rw [hnil] at this
        simp at this
        cases wp <;> simp_all)]
      exact ih.1
    · rw [advance_context_prefetch]
      exact ih.2

/-!
## `SparseDataDistUtil.detach` and `_pipeline_detach_model`

Callables (forwards) are opaque labels. The model is represented by the
forward attribute of each pipelined module (in registry order), the forward
attribute of each KJT input-dist (in discovery order), and the module-tree
attribute slots that hold postproc modules (an association map
fqn → module label, written by `setattr`).
-/

theorem restoreForwards_eq (fs os : List String) (h : fs.length = os.length) :
    restoreForwards fs os = os := by
  induction fs generalizing os with
  | nil =>
    cases os with
    | nil => rfl
    | cons o os2 => simp at h
  | cons f fs2 ih =>
    cases os with
    | nil => simp at h
    | cons o os2 =>
      simp only [restoreForwards]
      simp only [List.length_cons, Nat.succ.injEq] at h
      rw [ih os2 h]

theorem lookupStr_replaceSlot_self (slots : List (String × String)) (k v : String)
    (hsome : (lookupStr slots k).isSome) :
    lookupStr (replaceSlot slots k v) k = Option.some v := by
  induction slots with
  | nil => simp [lookupStr] at hsome
  | cons p rest ih =>
    by_cases hk : p.1 = k
    · simp [replaceSlot, hk, lookupStr]
    · simp only [lookupStr, if_neg hk] at hsome
      simp only [replaceSlot, if_neg hk, lookupStr]
      exact ih hsome

theorem lookupStr_replaceSlot_ne (slots : List (String × String)) (k k2 v : String)
    (h : k2 ≠ k) : lookupStr (replaceSlot slots k v) k2 = lookupStr slots k2 := by
  induction slots with
  | nil => simp [replaceSlot]
  | cons p rest ih =>
    by_cases hk : p.1 = k
    · simp only [replaceSlot, if_pos hk, lookupStr]
      rw [if_neg (Ne.symm h), if_neg (by rw [hk]; exact Ne.symm h)]
    · simp only [replaceSlot, if_neg hk, lookupStr]
      by_cases hk2 : p.1 = k2
      · rw [if_pos hk2, if_pos hk2]
      · rw [if_neg hk2, if_neg hk2]
        exact ih

theorem lookupStr_append_single_self {α : Type} (l : List (String × α)) (k : String) (v : α)
    (h : lookupStr l k = Option.none) : lookupStr (l ++ [(k, v)]) k = Option.some v := by
  induction l with
  | nil => simp [lookupStr]
  | cons p rest ih =>
    simp only [lookupStr] at h ⊢
    by_cases hk : p.1 = k
    · rw [if_pos hk] at h; exact absurd h (by simp)
    · rw [if_neg hk] at h ⊢
      exact ih h

theorem lookupStr_append_single_ne {α : Type} (l : List (String × α)) (k k2 : String) (v : α)
    (h : k2 ≠ k) : lookupStr (l ++ [(k, v)]) k2 = lookupStr l k2 := by
  induction l with
  | nil => simp [lookupStr, Ne.symm h]
  | cons p rest ih =>
    simp only [List.cons_append, lookupStr]
    by_cases hk2 : p.1 = k2
    · rw [if_pos hk2, if_pos hk2]
    · rw [if_neg hk2, if_neg hk2]
      exact ih

theorem lookupStr_setAttrSlot_self (slots : List (String × String)) (k v : String) :
    lookupStr (setAttrSlot slots k v) k = Option.some v := by
  unfold setAttrSlot
  split
  · exact lookupStr_replaceSlot_self slots k v (by assumption)
  · rename_i hnone
    exact lookupStr_append_single_self slots k v
      (Option.not_isSome_iff_eq_none.mp (by simpa using hnone))

theorem lookupStr_setAttrSlot_ne (slots : List (String × String)) (k k2 v : String)
    (h : k2 ≠ k) : lookupStr (setAttrSlot slots k v) k2 = lookupStr slots k2 := by
  unfold setAttrSlot
  split
  · exact lookupStr_replaceSlot_ne slots k k2 v h
  · exact lookupStr_append_single_ne slots k k2 v h

theorem lookupStr_foldl_setAttrSlot_not_mem (rest : List (String × String))
    (acc : List (String × String)) (k : String) (h : ∀ r ∈ rest, r.1 ≠ k) :
    lookupStr (rest.foldl (fun a q => setAttrSlot a q.1 q.2) acc) k = lookupStr acc k := by
  induction rest generalizing acc with
  | nil => rfl
  | cons r rs ih =>
    simp only [List.foldl_cons]
    rw [ih (setAttrSlot acc r.1 r.2) (fun x hx => h x (by simp [hx]))]
    exact lookupStr_setAttrSlot_ne acc r.1 k r.2 (Ne.symm (h r (by simp)))

theorem foldl_setAttrSlot_lookup (pps : List (String × String))
    (acc : List (String × String))
    (hnodup : (pps.map Prod.fst).Nodup) (p : String × String) (hp : p ∈ pps) :
    lookupStr (pps.foldl (fun a q => setAttrSlot a q.1 q.2) acc) p.1
      = Option.some p.2 := by
  induction pps generalizing acc with
  | nil => exact absurd hp (by simp)
  | cons q rest ih =>
    simp only [List.foldl_cons]
    rw [List.map_cons] at hnodup
    have hnd := List.nodup_cons.mp hnodup
    rcases List.mem_cons.mp hp with hq | hrest
    · subst hq
      have hnot : ∀ r ∈ rest, r.1 ≠ p.1 := by
        intro r hr hcontra
        exact hnd.1 (by
          rw [← hcontra]
          exact List.mem_map.mpr ⟨r, hr, rfl⟩)
      rw [lookupStr_foldl_setAttrSlot_not_mem rest (setAttrSlot acc p.1 p.2) p.1 hnot]
      exact lookupStr_setAttrSlot_self acc p.1 p.2
    · exact ih (setAttrSlot acc q.1 q.2) hnd.2 hrest

/-!
## Post-forward hook and fill callback ordering

The observable orchestration actions of `SparseDataDistUtil` are embedded as
an event alphabet; the hook body and the fill callback are the literal
sequences of calls they make.
-/

theorem dlGood_closed : ∀ s ∈ dlGood, ∀ s' ∈ dlNext s, s' ∈ dlGood := by decide

theorem dlReachable_good {s : DLState} (h : DLReachable s) : s ∈ dlGood := by
  induction h with
  | init => decide
  | step _ hmem ih => exact dlGood_closed _ ih _ hmem

/-!
## `PrecisionSessionMetric.__init__`

The metric configuration types come from `torchrec.metrics.metrics_config`
and `torchrec.metrics.rec_metric`, which are outside the analyzed sources;
they are embedded by the fields this constructor reads.
-/

/-- The `RecComputeMode` members referenced by `precision_session.py`
(`FUSED_TASKS_COMPUTATION`, `FUSED_TASKS_AND_STATES_COMPUTATION`, and the
default `UNFUSED_TASKS_COMPUTATION`). -/

theorem checkSessionTasks_none_iff (tasks : List RecTaskInfo) :
    checkSessionTasks tasks = Option.none ↔
      ∀ t ∈ tasks, ∃ d : SessionMetricDef,
        t.session_metric_def = Option.some d ∧ d.top_threshold.isSome := by
  induction tasks with
  | nil => simp [checkSessionTasks]
  | cons t rest ih =>
    constructor
    · intro h x hx
      rcases List.mem_cons.mp hx with hxt | hxr
      · subst hxt
        cases hd : x.session_metric_def with
        | none => simp [checkSessionTasks, hd] at h
        | some d =>
          cases ht : d.top_threshold with
          | none => simp [checkSessionTasks, hd, ht] at h
          | some v => exact ⟨d, rfl, by simp [ht]⟩
      · cases hd : t.session_metric_def with
        | none => simp [checkSessionTasks, hd] at h
        | some d =>
          cases ht : d.top_threshold with
          | none => simp [checkSessionTasks, hd, ht] at h
          | some v =>
            simp only [checkSessionTasks, hd, ht] at h
            exact ih.mp h x hxr
    · intro h
      obtain ⟨d, hd, ht⟩ := h t (by simp)
      cases hth : d.top_threshold with
      | none => rw [hth] at ht; exact absurd ht (by simp)
      | some v =>
        simp only [checkSessionTasks, hd, hth]
        exact ih.mpr (fun x hx => h x (by simp [hx]))

/-!
## Remaining helper lemmas
-/

theorem buildKwargsList_length (infos : List (String × ArgInfo)) (input : PyVal)
    (out : List (String × PyVal)) (h : buildKwargsList infos input = .ok out) :
    out.length = infos.length := by
  induction infos generalizing out with
  | nil =>
    simp [buildKwargsList] at h
    simp [← h]
  | cons a rest ih =>
    obtain ⟨k, ai⟩ := a
    simp only [buildKwargsList] at h
    cases ha : ai.process_steps input with
    | error e => rw [ha] at h; exact absurd h (by simp)
    | ok v =>
      rw [ha] at h
      cases hrest : buildKwargsList rest input with
      | error e => rw [hrest] at h; exact absurd h (by simp)
      | ok vs =>
        rw [hrest] at h
        cases h
        simp [ih vs hrest]

theorem buildKwargsList_get (infos : List (String × ArgInfo)) (input : PyVal)
    (out : List (String × PyVal)) (h : buildKwargsList infos input = .ok out)
    (i : Nat) (hi : i < infos.length) (ho : i < out.length) :
    (out.get ⟨i, ho⟩).1 = (infos.get ⟨i, hi⟩).1 ∧
    (infos.get ⟨i, hi⟩).2.process_steps input = .ok (out.get ⟨i, ho⟩).2 := by
  induction infos generalizing out i with
  | nil => exact absurd hi (by simp)
  | cons a rest ih =>
    obtain ⟨k, ai⟩ := a
    simp only [buildKwargsList] at h
    cases ha : ai.process_steps input with
    | error e => rw [ha] at h; exact absurd h (by simp)
    | ok v =>
      rw [ha] at h
      cases hrest : buildKwargsList rest input with
      | error e => rw [hrest] at h; exact absurd h (by simp)
      | ok vs =>
        rw [hrest] at h
        cases h
        cases i with
        | zero => exact ⟨rfl, by simpa using ha⟩
        | succ j =>
          exact ih vs hrest j (by simpa using hi) (by simpa using ho)

theorem build_args_kwargs_parts (c : CallArgs) (input : PyVal)
    (out : List PyVal × List (String × PyVal))
    (h : c.build_args_kwargs input = .ok out) :
    buildArgsList c.args input = .ok out.1 ∧
    buildKwargsList c.kwargs input = .ok out.2 := by
  unfold CallArgs.build_args_kwargs at h
  cases ha : buildArgsList c.args input with
  | error e => rw [ha] at h; exact absurd h (by simp)
  | ok args =>
    rw [ha] at h
    cases hk : buildKwargsList c.kwargs input with
    | error e => rw [hk] at h; exact absurd h (by simp)
    | ok kwargs =>
      rw [hk] at h
      cases h
      exact ⟨rfl, rfl⟩

theorem pyval_head_ne {l : List Int} {x : Int} (h : l ≠ []) :
    (l.headD x) = l.head h := by
  cases l with
  | nil => exact absurd rfl h
  | cons a rest => rfl

theorem headD_mem_head? (l : List Int) (h : l ≠ []) :
    Option.some (l.headD 0) = l.head? := by
  cases l with
  | nil => exact absurd rfl h
  | cons a rest => rfl

/-!
## Claim theorems
-/

/-- C7: for every `ArgInfo` with a non-empty step list, `process_steps`
applies the first step to the raw value and feeds its output to the
remaining chain, which composes by concatenation (strict list order);
`CallArgs.build_args_kwargs` applies each positional and each keyword
`ArgInfo` independently to the same initial input, so the reconstruction is
determined position-by-position by `process_steps` (and, the functions
being pure, identical inputs give identical results). -/

theorem c7_arg_resolution_order :
    (∀ (info : ArgInfo) (s : ArgInfoStep) (rest : List ArgInfoStep) (arg : PyVal),
        info.steps = s :: rest →
        info.process_steps arg =
          match s.process arg with
          | .error e => .error e
          | .ok v => stepsLoop rest v)
    ∧ (∀ (xs ys : List ArgInfoStep) (arg : PyVal),
        stepsLoop (xs ++ ys) arg =
          match stepsLoop xs arg with
          | .error e => .error e
          | .ok v => stepsLoop ys v)
    ∧ (∀ (c : CallArgs) (input : PyVal) (out : List PyVal × List (String × PyVal)),
        c.build_args_kwargs input = .ok out →
        out.1.length = c.args.length ∧ out.2.length = c.kwargs.length ∧
        (∀ i (hi : i < c.args.length) (ho : i < out.1.length),
          (c.args.get ⟨i, hi⟩).process_steps input = .ok (out.1.get ⟨i, ho⟩)) ∧
        (∀ i (hi : i < c.kwargs.length) (ho : i < out.2.length),
          (out.2.get ⟨i, ho⟩).1 = (c.kwargs.get ⟨i, hi⟩).1 ∧
          (c.kwargs.get ⟨i, hi⟩).2.process_steps input = .ok (out.2.get ⟨i, ho⟩).2)) := by
  refine ⟨?_, stepsLoop_append, ?_⟩
  · intro info s rest arg hinfo
    unfold ArgInfo.process_steps
    rw [hinfo]
    simp only [List.isEmpty_cons, if_false, Bool.false_eq_true, stepsLoop]
  · intro c input out h
    obtain ⟨ha, hk⟩ := build_args_kwargs_parts c input out h
    exact ⟨buildArgsList_length c.args input out.1 ha,
      buildKwargsList_length c.kwargs input out.2 hk,
      fun i hi ho => buildArgsList_get c.args input out.1 ha i hi ho,
      fun i hi ho => buildKwargsList_get c.kwargs input out.2 hk i hi ho⟩

/-- Witness for C7 at concrete inputs: a two-step chain
`getattr(·, "a")` then noop on the object `{a: 7}`, and a concrete
`build_args_kwargs` run. -/

theorem c7_arg_resolution_order_witness :
    ((ArgInfo.mk [ArgInfoStep.get_attr "a", ArgInfoStep.noop]).process_steps
        (PyVal.obj [("a", PyVal.int 7)]) =
      match (ArgInfoStep.get_attr "a").process (PyVal.obj [("a", PyVal.int 7)]) with
      | .error e => .error e
      | .ok v => stepsLoop [ArgInfoStep.noop] v)
    ∧ ([PyVal.int 7].length =
        (CallArgs.mk [ArgInfo.mk [ArgInfoStep.get_attr "a"]]
          [("k", ArgInfo.mk [ArgInfoStep.noop])]).args.length) := by
  constructor
  · exact c7_arg_resolution_order.1 _ (ArgInfoStep.get_attr "a") [ArgInfoStep.noop]
      (PyVal.obj [("a", PyVal.int 7)]) rfl
  · exact (c7_arg_resolution_order.2.2
      (CallArgs.mk [ArgInfo.mk [ArgInfoStep.get_attr "a"]]
        [("k", ArgInfo.mk [ArgInfoStep.noop])])
      (PyVal.obj [("a", PyVal.int 7)])
      ([PyVal.int 7], [("k", PyVal.obj [("a", PyVal.int 7)])]) rfl).1

/-- C10: `ArgInfo.process_steps` with an empty step list returns Python
`None` for every input — not the input itself — and consequently
`build_args_kwargs` yields `None` at every argument position whose
descriptor has no steps. -/

theorem c10_empty_steps_returns_none :
    (∀ arg : PyVal, (ArgInfo.mk []).process_steps arg = .ok PyVal.none)
    ∧ (∀ arg : PyVal, arg ≠ PyVal.none →
        (ArgInfo.mk []).process_steps arg ≠ .ok arg)
    ∧ (∀ (c : CallArgs) (input : PyVal) (out : List PyVal × List (String × PyVal)),
        c.build_args_kwargs input = .ok out →
        ∀ i (hi : i < c.args.length) (ho : i < out.1.length),
          (c.args.get ⟨i, hi⟩).steps = [] → out.1.get ⟨i, ho⟩ = PyVal.none) := by
  refine ⟨fun arg => rfl, fun arg hne h => ?_, fun c input out h i hi ho hsteps => ?_⟩
  · have : PyVal.none = arg := by
      have h0 : (ArgInfo.mk []).process_steps arg = .ok PyVal.none := rfl
      rw [h0] at h
      exact Except.ok.inj h
    exact hne this.symm
  · have hget := buildArgsList_get c.args input out.1
      (build_args_kwargs_parts c input out h).1 i hi ho
    have hempty : (c.args.get ⟨i, hi⟩).process_steps input = .ok PyVal.none := by
      unfold ArgInfo.process_steps
      rw [hsteps]
      rfl
    rw [hempty] at hget
    exact (Except.ok.inj hget).symm

/-- Witness for C10: a stepless descriptor applied to the int `3` returns
`None`, and a `build_args_kwargs` with a stepless positional descriptor
yields `None` at that position. -/

theorem c10_empty_steps_returns_none_witness :
    ((ArgInfo.mk []).process_steps (PyVal.int 3) = .ok PyVal.none)
    ∧ ((ArgInfo.mk []).process_steps (PyVal.int 3) ≠ .ok (PyVal.int 3))
    ∧ (([PyVal.none].get ⟨0, by decide⟩) = PyVal.none) := by
  refine ⟨c10_empty_steps_returns_none.1 (PyVal.int 3),
    c10_empty_steps_returns_none.2.1 (PyVal.int 3) (by intro hc; cases hc), ?_⟩
  exact c10_empty_steps_returns_none.2.2
    (CallArgs.mk [ArgInfo.mk []] []) (PyVal.int 3) ([PyVal.none], []) rfl
    0 (by decide) (by decide) rfl

/-- C3: `PipelinedPostproc.forward` returns the cached entry unchanged
(without executing the wrapped module) whenever the context's
`postproc_fwd_results` already holds this interceptor's fqn; on a first
invocation it builds its arguments via its `ArgInfo` steps, runs the wrapped
module exactly once, stores the result under its fqn and returns it, and a
second invocation within the same context returns the identical cached
object with exactly one execution of the wrapped module in total. -/

theorem c3_postproc_caching :
    (∀ (fqn : String) (cargs : CallArgs)
        (f : List PyVal → List (String × PyVal) → PyVal)
        (results : List (String × PyVal)) (input : PyVal) (r : PyVal),
        lookupStr results fqn = Option.some r →
        PipelinedPostproc.forward fqn cargs f results input = .ok (r, results, 0))
    ∧ (∀ (fqn : String) (cargs : CallArgs)
        (f : List PyVal → List (String × PyVal) → PyVal)
        (results : List (String × PyVal)) (input : PyVal)
        (a : List PyVal) (kw : List (String × PyVal)),
        lookupStr results fqn = Option.none →
        cargs.build_args_kwargs input = .ok (a, kw) →
        PipelinedPostproc.forward fqn cargs f results input
          = .ok (f a kw, results ++ [(fqn, f a kw)], 1)
        ∧ PipelinedPostproc.forward fqn cargs f (results ++ [(fqn, f a kw)]) input
          = .ok (f a kw, results ++ [(fqn, f a kw)], 0)) := by
  constructor
  · intro fqn cargs f results input r hr
    unfold PipelinedPostproc.forward
    rw [hr]
  · intro fqn cargs f results input a kw hnone hbuild
    constructor
    · unfold PipelinedPostproc.forward
      rw [hnone, hbuild]
    · unfold PipelinedPostproc.forward
      rw [lookupStr_append_self results fqn (f a kw) hnone]

/-- Witness for C3: a concrete interceptor (`fqn = "pp"`, one noop step,
wrapped module returning its first positional argument) on an empty cache:
first call executes once and caches, second call returns the cache with
zero executions. -/

theorem c3_postproc_caching_witness :
    (PipelinedPostproc.forward "pp" (CallArgs.mk [ArgInfo.mk [ArgInfoStep.noop]] [])
        (fun a _ => a.headD PyVal.none) [("other", PyVal.int 1)] (PyVal.int 9)
      = .ok (PyVal.int 9, [("other", PyVal.int 1), ("pp", PyVal.int 9)], 1))
    ∧ (PipelinedPostproc.forward "pp" (CallArgs.mk [ArgInfo.mk [ArgInfoStep.noop]] [])
        (fun a _ => a.headD PyVal.none) [("other", PyVal.int 1), ("pp", PyVal.int 9)] (PyVal.int 9)
      = .ok (PyVal.int 9, [("other", PyVal.int 1), ("pp", PyVal.int 9)], 0)) :=
  c3_postproc_caching.2 "pp" (CallArgs.mk [ArgInfo.mk [ArgInfoStep.noop]] [])
    (fun a _ => a.headD PyVal.none) [("other", PyVal.int 1)] (PyVal.int 9)
    [PyVal.int 9] [] rfl rfl

/-- C4: a pipelined intercepting forward raises `AssertionError` exactly
when its module name is absent from the pending map of the current context
(`input_dist_tensors_requests` for `PipelinedForward`,
`module_input_post_prefetch` for `PrefetchPipelinedForward`); when the
entry is present (together with the module execution context), the call
pops both entries and returns `compute_and_output_dist` applied to the
popped module context and data. -/

theorem c4_pipelined_forward_assertion :
    (∀ (Req MCtx Data Out : Type) (name : String) (wait : Req → Data)
        (cod : MCtx → Data → Out) (ctx : SyncFwdContext Req MCtx),
        ((∃ e, PipelinedForward.call name wait cod ctx = .error e ∧ e = PyErr.assertionError) ↔
          lookupStr ctx.input_dist_tensors_requests name = Option.none))
    ∧ (∀ (Req MCtx Data Out : Type) (name : String) (wait : Req → Data)
        (cod : MCtx → Data → Out) (ctx : SyncFwdContext Req MCtx)
        (req : Req) (mctx : MCtx),
        lookupStr ctx.input_dist_tensors_requests name = Option.some req →
        lookupStr ctx.module_contexts name = Option.some mctx →
        PipelinedForward.call name wait cod ctx =
          .ok (cod mctx (wait req),
            { input_dist_tensors_requests := eraseKey ctx.input_dist_tensors_requests name,
              module_contexts := eraseKey ctx.module_contexts name }))
    ∧ (∀ (MCtx Data Out : Type) (name : String)
        (cod : MCtx → Data → Out) (ctx : PrefetchFwdContext Data MCtx),
        ((∃ e, PrefetchPipelinedForward.call name cod ctx = .error e ∧ e = PyErr.assertionError) ↔
          lookupStr ctx.module_input_post_prefetch name = Option.none))
    ∧ (∀ (MCtx Data Out : Type) (name : String)
        (cod : MCtx → Data → Out) (ctx : PrefetchFwdContext Data MCtx)
        (data : Data) (mctx : MCtx),
        lookupStr ctx.module_input_post_prefetch name = Option.some data →
        lookupStr ctx.module_contexts_post_prefetch name = Option.some mctx →
        PrefetchPipelinedForward.call name cod ctx =
          .ok (cod mctx data,
            { module_input_post_prefetch := eraseKey ctx.module_input_post_prefetch name,
              module_contexts_post_prefetch := eraseKey ctx.module_contexts_post_prefetch name })) := by
  refine ⟨?_, ?_, ?_, ?_⟩
  · intro Req MCtx Data Out name wait cod ctx
    constructor
    · rintro ⟨e, he, rfl⟩
      unfold PipelinedForward.call at he
      cases hl : lookupStr ctx.input_dist_tensors_requests name with
      | none => rfl
      | some req =>
        rw [hl] at he
        cases hm : lookupStr ctx.module_contexts name with
        | none => rw [hm] at he; cases he
        | some mctx => rw [hm] at he; cases he
    · intro hl
      refine ⟨PyErr.assertionError, ?_, rfl⟩
      unfold PipelinedForward.call
      rw [hl]
  · intro Req MCtx Data Out name wait cod ctx req mctx hl hm
    unfold PipelinedForward.call
    rw [hl, hm]
  · intro MCtx Data Out name cod ctx
    constructor
    · rintro ⟨e, he, rfl⟩
      unfold PrefetchPipelinedForward.call at he
      cases hl : lookupStr ctx.module_input_post_prefetch name with
      | none => rfl
      | some data =>
        rw [hl] at he
        cases hm : lookupStr ctx.module_contexts_post_prefetch name with
        | none => rw [hm] at he; cases he
        | some mctx => rw [hm] at he; cases he
    · intro hl
      refine ⟨PyErr.assertionError, ?_, rfl⟩
      unfold PrefetchPipelinedForward.call
      rw [hl]
  · intro MCtx Data Out name cod ctx data mctx hl hm
    unfold PrefetchPipelinedForward.call
    rw [hl, hm]

/-- Witness for C4 at concrete contexts over `Nat` payloads: the success
path pops both entries and applies `compute_and_output_dist`, for both the
synchronous and the prefetch variant. -/

theorem c4_pipelined_forward_assertion_witness :
    (PipelinedForward.call "ebc" (fun r : Nat => r + 10) (fun m d : Nat => m * 100 + d)
        { input_dist_tensors_requests := [("ebc", 1)], module_contexts := [("ebc", 2)] }
      = .ok (211, { input_dist_tensors_requests := [], module_contexts := [] }))
    ∧ (PrefetchPipelinedForward.call "ebc" (fun m d : Nat => m * 100 + d)
        { module_input_post_prefetch := [("ebc", 5)], module_contexts_post_prefetch := [("ebc", 6)] }
      = .ok (605, { module_input_post_prefetch := [], module_contexts_post_prefetch := [] })) :=
  ⟨c4_pipelined_forward_assertion.2.1 Nat Nat Nat Nat "ebc" (fun r => r + 10)
      (fun m d => m * 100 + d)
      { input_dist_tensors_requests := [("ebc", 1)], module_contexts := [("ebc", 2)] }
      1 2 rfl rfl,
    c4_pipelined_forward_assertion.2.2.2 Nat Nat Nat "ebc" (fun m d => m * 100 + d)
      { module_input_post_prefetch := [("ebc", 5)], module_contexts_post_prefetch := [("ebc", 6)] }
      5 6 rfl rfl⟩

theorem rewriteModelFold_covers (sm : List String) (nf : FxNode → Nat)
    (nodes : List FxNode) (acc : RewriteAcc) (node : FxNode)
    (hmem : node ∈ nodes) (hop : node.op = "call_module")
    (htgt : node.target ∈ sm) (hargs : 0 < node.num_args + node.num_kwargs) :
    (nf node = node.num_args + node.num_kwargs →
      node.target ∈ (nodes.foldl (rewriteModelStep sm nf) acc).pipelined_forwards)
    ∧ (nf node ≠ node.num_args + node.num_kwargs →
      node.target ∈ (nodes.foldl (rewriteModelStep sm nf) acc).non_pipelined_sharded_modules) := by
  induction nodes generalizing acc with
  | nil => exact absurd hmem (by simp)
  | cons n rest ih =>
    rcases List.mem_cons.mp hmem with hn | hrest
    · subst hn
      simp only [List.foldl_cons]
      constructor
      · intro hfound
        refine (rewriteModelFold_mono sm nf rest (rewriteModelStep sm nf acc node) node.target).1 ?_
        unfold rewriteModelStep
        rw [if_neg (by
          push_neg
          exact ⟨by simp [hop], htgt⟩)]
        simp only []
        rw [if_neg (by omega), if_pos hfound]
        simp
      · intro hnot
        refine (rewriteModelFold_mono sm nf rest (rewriteModelStep sm nf acc node) node.target).2 ?_
        unfold rewriteModelStep
        rw [if_neg (by
          push_neg
          exact ⟨by simp [hop], htgt⟩)]
        simp only []
        rw [if_neg (by omega), if_neg hnot]
        simp
    · simpa using ih (rewriteModelStep sm nf acc n) hrest

/-- C1 (amended): for every `call_module` node on a sharded module with at
least one positional or keyword argument, `_rewrite_model` pipelines the
module (it joins `pipelined_forwards`) exactly when `num_found` from
`get_node_args` equals the node's total arg+kwarg count, and otherwise
records its name in the returned `non_pipelined_sharded_modules` list. (A
sharded-module call node with zero args and kwargs is skipped with only a
log warning and joins neither list — see the counterexample.) -/

theorem c1_rewrite_model_dichotomy (sm : List String) (nf : FxNode → Nat)
    (nodes : List FxNode) (node : FxNode)
    (hmem : node ∈ nodes) (hop : node.op = "call_module")
    (htgt : node.target ∈ sm) (hargs : 0 < node.num_args + node.num_kwargs) :
    (nf node = node.num_args + node.num_kwargs →
      node.target ∈ (rewriteModelLoop sm nf nodes).pipelined_forwards)
    ∧ (nf node ≠ node.num_args + node.num_kwargs →
      node.target ∈ (rewriteModelLoop sm nf nodes).non_pipelined_sharded_modules) :=
  rewriteModelFold_covers sm nf nodes
    { pipelined_forwards := [], non_pipelined_sharded_modules := [] }
    node hmem hop htgt hargs

/-- Witness for C1 (amended) at a concrete two-node graph: one resolvable
sharded call is pipelined, one unresolvable sharded call is reported in the
non-pipelined list. -/

theorem c1_rewrite_model_dichotomy_witness :
    ("ebc" ∈ (rewriteModelLoop ["ebc", "ec"] (fun n => if n.target = "ebc" then 2 else 0)
        [{ op := "call_module", target := "ebc", num_args := 2, num_kwargs := 0 },
         { op := "call_module", target := "ec", num_args := 1, num_kwargs := 0 }]).pipelined_forwards)
    ∧ ("ec" ∈ (rewriteModelLoop ["ebc", "ec"] (fun n => if n.target = "ebc" then 2 else 0)
        [{ op := "call_module", target := "ebc", num_args := 2, num_kwargs := 0 },
         { op := "call_module", target := "ec", num_args := 1, num_kwargs := 0 }]).non_pipelined_sharded_modules) :=
  ⟨(c1_rewrite_model_dichotomy ["ebc", "ec"] (fun n => if n.target = "ebc" then 2 else 0)
      [{ op := "call_module", target := "ebc", num_args := 2, num_kwargs := 0 },
       { op := "call_module", target := "ec", num_args := 1, num_kwargs := 0 }]
      { op := "call_module", target := "ebc", num_args := 2, num_kwargs := 0 }
      (by decide) rfl (by decide) (by decide)).1 (by decide),
   (c1_rewrite_model_dichotomy ["ebc", "ec"] (fun n => if n.target = "ebc" then 2 else 0)
      [{ op := "call_module", target := "ebc", num_args := 2, num_kwargs := 0 },
       { op := "call_module", target := "ec", num_args := 1, num_kwargs := 0 }]
      { op := "call_module", target := "ec", num_args := 1, num_kwargs := 0 }
      (by decide) rfl (by decide) (by decide)).2 (by decide)⟩

/-- Counterexample to C1 as stated: a sharded-module `call_module` node with
zero args and kwargs (`num_found = 0` equals the total count `0`, and the
claim also demands that a non-pipelined module's name appear in the
returned list) is dropped from both returned lists — `_rewrite_model` hits
the `total_num_args == 0` `continue` and records it nowhere. -/

theorem c1_rewrite_model_zero_arg_counterexample :
    (rewriteModelLoop ["ebc"] (fun _ => 0)
        [{ op := "call_module", target := "ebc", num_args := 0, num_kwargs := 0 }])
      = { pipelined_forwards := [], non_pipelined_sharded_modules := [] }
    ∧ "ebc" ∉ (rewriteModelLoop ["ebc"] (fun _ => 0)
        [{ op := "call_module", target := "ebc", num_args := 0, num_kwargs := 0 }]).pipelined_forwards
    ∧ "ebc" ∉ (rewriteModelLoop ["ebc"] (fun _ => 0)
        [{ op := "call_module", target := "ebc", num_args := 0, num_kwargs := 0 }]).non_pipelined_sharded_modules := by
  decide

/-- C2: starting from the initialization of `_initialize_or_reattach`, after
any number of `_advance_context` calls the context deque keeps its constant
length (3 with a prefetch stream, 2 without); each further advance removes
exactly the front context and appends exactly one freshly created context
(index `_next_index`, which increments) at the back, and re-points every
pipelined module forward's and every pipelined postproc's context reference
to the new front context. -/

theorem c2_context_window_invariant (wp : Bool) (nm np n : Nat) :
    (SddCtxState.advance_context^[n] (SddCtxState.init wp nm np)).contexts.length
        = (if wp then 3 else 2)
    ∧ (SddCtxState.advance_context^[n + 1] (SddCtxState.init wp nm np)).contexts
        = (SddCtxState.advance_context^[n] (SddCtxState.init wp nm np)).contexts.tail
          ++ [((SddCtxState.advance_context^[n] (SddCtxState.init wp nm np)).next_index : Int)]
    ∧ (SddCtxState.advance_context^[n + 1] (SddCtxState.init wp nm np)).next_index
        = (SddCtxState.advance_context^[n] (SddCtxState.init wp nm np)).next_index + 1
    ∧ (SddCtxState.advance_context^[n + 1] (SddCtxState.init wp nm np)).contexts.length
        = (if wp then 3 else 2)
    ∧ (SddCtxState.advance_context^[n + 1] (SddCtxState.init wp nm np)).module_fwd_contexts.length = nm
    ∧ (SddCtxState.advance_context^[n + 1] (SddCtxState.init wp nm np)).postproc_contexts.length = np
    ∧ (∀ c ∈ (SddCtxState.advance_context^[n + 1] (SddCtxState.init wp nm np)).module_fwd_contexts,
        Option.some c = (SddCtxState.advance_context^[n + 1] (SddCtxState.init wp nm np)).contexts.head?)
    ∧ (∀ c ∈ (SddCtxState.advance_context^[n + 1] (SddCtxState.init wp nm np)).postproc_contexts,
        Option.some c = (SddCtxState.advance_context^[n + 1] (SddCtxState.init wp nm np)).contexts.head?) := by
  have hinv := iterate_advance_invariant wp nm np n
  have hinv1 := iterate_advance_invariant wp nm np (n + 1)
  have hsucc : SddCtxState.advance_context^[n + 1] (SddCtxState.init wp nm np)
      = (SddCtxState.advance_context^[n] (SddCtxState.init wp nm np)).advance_context :=
    Function.iterate_succ_apply' _ n _
  set s := SddCtxState.advance_context^[n] (SddCtxState.init wp nm np) with hs
  have hlen_count : ∀ k : Nat, (SddCtxState.advance_context^[k] (SddCtxState.init wp nm np)).module_fwd_contexts.length = nm
      ∧ (SddCtxState.advance_context^[k] (SddCtxState.init wp nm np)).postproc_contexts.length = np := by
    intro k
    induction k with
    | zero => cases wp <;> simp [SddCtxState.init, SddCtxState.add_context]
    | succ j ihj =>
      rw [Function.iterate_succ_apply']
      simpa [SddCtxState.advance_context, SddCtxState.add_context,
        SddCtxState.set_module_context] using ihj
  refine ⟨hinv.1, ?_, ?_, hinv1.1, ?_, ?_, ?_, ?_⟩
  · rw [hsucc]; exact advance_context_contexts s
  · rw [hsucc]; rfl
  · exact (hlen_count (n + 1)).1
  · exact (hlen_count (n + 1)).2
  · intro c hc
    rw [hsucc] at hc ⊢
    have hcur : c = ((s.contexts.tail ++ [(s.next_index : Int)]).headD 0) := by
      simp only [SddCtxState.advance_context, SddCtxState.set_module_context,
        SddCtxState.add_context, SddCtxState.current_context] at hc
      rcases List.mem_map.mp hc with ⟨x, hx, hxc⟩
      exact hxc.symm
    rw [advance_context_contexts s, hcur]
    exact headD_mem_head? _ (by simp)
  · intro c hc
    rw [hsucc] at hc ⊢
    have hcur : c = ((s.contexts.tail ++ [(s.next_index : Int)]).headD 0) := by
      simp only [SddCtxState.advance_context, SddCtxState.set_module_context,
        SddCtxState.add_context, SddCtxState.current_context] at hc
      rcases List.mem_map.mp hc with ⟨x, hx, hxc⟩
      exact hxc.symm
    rw [advance_context_contexts s, hcur]
    exact headD_mem_head? _ (by simp)

/-- C5: in the post-forward hook registered by `SparseDataDistUtil`,
`wait_sparse_data_dist` is invoked strictly before `_advance_context`; the
fill-phase callback `wait_sdd_fill_callback` enforces the same order; and in
one pipeline iteration the advance happens before `start_sparse_data_dist`
is issued for the next batch's context. -/

theorem c5_wait_before_advance_before_start :
    forwardHookTrace = [SddEvent.waitSparseDataDist, SddEvent.advanceContext]
    ∧ eventPos forwardHookTrace SddEvent.waitSparseDataDist
        < eventPos forwardHookTrace SddEvent.advanceContext
    ∧ eventPos waitSddFillCallbackTrace SddEvent.waitSparseDataDist
        < eventPos waitSddFillCallbackTrace SddEvent.advanceContext
    ∧ eventPos pipelineIterationTrace SddEvent.waitSparseDataDist
        < eventPos pipelineIterationTrace SddEvent.advanceContext
    ∧ eventPos pipelineIterationTrace SddEvent.advanceContext
        < eventPos pipelineIterationTrace SddEvent.startSparseDataDist := by
  decide

/-- C6: after `SparseDataDistUtil.detach()` on an initialized pipeline,
every pipelined module forward and every overridden KJT input-dist forward
is restored to the saved original callable, every pipelined postproc slot
in the model again holds the wrapped original module, the post-forward hook
is removed, and `_contexts` and `_next_index` are left unchanged (so are
the saved originals, allowing re-attach from the preserved in-flight
state). -/

theorem c6_detach_restores_and_preserves (s : SddUtilState)
    (hinit : s.is_initialized = true) (hhook : s.fwd_hook = true)
    (hmf : s.model.module_forwards.length = s.original_forwards.length)
    (hkjt : s.model.kjt_dist_forwards.length = s.original_kjt_dist_forwards.length)
    (hnodup : (s.pipelined_postprocs.map Prod.fst).Nodup) :
    ∃ s', s.detach = .ok s'
      ∧ s'.model.module_forwards = s.original_forwards
      ∧ s'.model.kjt_dist_forwards = s.original_kjt_dist_forwards
      ∧ (∀ p ∈ s.pipelined_postprocs,
          lookupStr s'.model.postproc_slots p.1 = Option.some p.2)
      ∧ s'.fwd_hook = false
      ∧ s'.is_initialized = false
      ∧ s'.contexts = s.contexts
      ∧ s'.next_index = s.next_index
      ∧ s'.original_forwards = s.original_forwards
      ∧ s'.original_kjt_dist_forwards = s.original_kjt_dist_forwards
      ∧ s'.pipelined_postprocs = s.pipelined_postprocs := by
  refine ⟨{ s with
      is_initialized := false,
      fwd_hook := false,
      model := { module_forwards := restoreForwards s.model.module_forwards s.original_forwards,
                 kjt_dist_forwards := restoreForwards s.model.kjt_dist_forwards s.original_kjt_dist_forwards,
                 postproc_slots := s.pipelined_postprocs.foldl
                   (fun acc p => setAttrSlot acc p.1 p.2) s.model.postproc_slots } },
    ?_, ?_, ?_, ?_, rfl, rfl, rfl, rfl, rfl, rfl, rfl⟩
  · unfold SddUtilState.detach pipeline_detach_model
    rw [if_pos hinit, if_pos hhook, if_pos hkjt]
  · exact restoreForwards_eq _ _ hmf
  · exact restoreForwards_eq _ _ hkjt
  · intro p hp
    exact foldl_setAttrSlot_lookup s.pipelined_postprocs s.model.postproc_slots hnodup p hp

/-- Witness for C6: a concrete initialized state with one pipelined module,
one KJT dist and one pipelined postproc detaches to the original forwards
with the context deque and `_next_index` untouched. -/

theorem c6_detach_restores_and_preserves_witness :
    ∃ s', SddUtilState.detach
        { is_initialized := true, fwd_hook := true, contexts := [3, 4], next_index := 5,
          model := { module_forwards := ["pipelined_fwd"], kjt_dist_forwards := ["fused_kjt_fwd"],
                     postproc_slots := [("pp", "wrapped_pp")] },
          original_forwards := ["orig_fwd"], original_kjt_dist_forwards := ["orig_kjt_fwd"],
          pipelined_postprocs := [("pp", "orig_pp")] } = .ok s'
      ∧ s'.model.module_forwards = ["orig_fwd"]
      ∧ s'.model.kjt_dist_forwards = ["orig_kjt_fwd"]
      ∧ (∀ p ∈ [("pp", "orig_pp")], lookupStr s'.model.postproc_slots p.1 = Option.some p.2)
      ∧ s'.fwd_hook = false
      ∧ s'.is_initialized = false
      ∧ s'.contexts = [3, 4]
      ∧ s'.next_index = 5
      ∧ s'.original_forwards = ["orig_fwd"]
      ∧ s'.original_kjt_dist_forwards = ["orig_kjt_fwd"]
      ∧ s'.pipelined_postprocs = [("pp", "orig_pp")] :=
  c6_detach_restores_and_preserves
    { is_initialized := true, fwd_hook := true, contexts := [3, 4], next_index := 5,
      model := { module_forwards := ["pipelined_fwd"], kjt_dist_forwards := ["fused_kjt_fwd"],
                 postproc_slots := [("pp", "wrapped_pp")] },
      original_forwards := ["orig_fwd"], original_kjt_dist_forwards := ["orig_kjt_fwd"],
      pipelined_postprocs := [("pp", "orig_pp")] }
    rfl rfl rfl rfl (by decide)

/-- C8: constructing a `PrecisionSessionMetric` raises a
`RecMetricException` exactly when the compute mode is a fused-tasks mode,
or `fused_update_limit` is positive, or some task lacks a
`session_metric_def`, or some task's `session_metric_def` lacks a
`top_threshold`; when none of these hold, construction succeeds and keeps
the given configuration unchanged (no defaults substituted). -/

theorem c8_precision_session_validation :
    (∀ (ws mr bs : Nat) (tasks : List RecTaskInfo) (cm : RecComputeMode)
        (wsz ful : Nat),
        (∃ msg, PrecisionSessionMetric_init ws mr bs tasks cm wsz ful = .error msg) ↔
          (cm = RecComputeMode.fused_tasks_computation
            ∨ cm = RecComputeMode.fused_tasks_and_states_computation
            ∨ 0 < ful
            ∨ ∃ t ∈ tasks, t.session_metric_def = Option.none
                ∨ ∃ d, t.session_metric_def = Option.some d ∧ d.top_threshold = Option.none))
    ∧ (∀ (ws mr bs : Nat) (tasks : List RecTaskInfo) (cm : RecComputeMode)
        (wsz ful : Nat),
        ¬(cm = RecComputeMode.fused_tasks_computation
            ∨ cm = RecComputeMode.fused_tasks_and_states_computation
            ∨ 0 < ful
            ∨ ∃ t ∈ tasks, t.session_metric_def = Option.none
                ∨ ∃ d, t.session_metric_def = Option.some d ∧ d.top_threshold = Option.none) →
        PrecisionSessionMetric_init ws mr bs tasks cm wsz ful =
          .ok { world_size := ws, my_rank := mr, batch_size := bs, tasks := tasks,
                compute_mode := cm, window_size := wsz, fused_update_limit := ful }) := by
  have hbad : ∀ (tasks : List RecTaskInfo),
      (¬ checkSessionTasks tasks = Option.none) ↔
        (∃ t ∈ tasks, t.session_metric_def = Option.none
          ∨ ∃ d, t.session_metric_def = Option.some d ∧ d.top_threshold = Option.none) := by
    intro tasks
    rw [checkSessionTasks_none_iff]
    push_neg
    constructor
    · rintro ⟨t, ht, hbadt⟩
      refine ⟨t, ht, ?_⟩
      cases hd : t.session_metric_def with
      | none => exact Or.inl rfl
      | some d =>
        refine Or.inr ⟨d, rfl, ?_⟩
        have := hbadt d hd
        cases hth : d.top_threshold with
        | none => rfl
        | some v => rw [hth] at this; simp at this
    · rintro ⟨t, ht, hcase⟩
      refine ⟨t, ht, ?_⟩
      intro d hd
      rcases hcase with hnone | ⟨d2, hd2, hth2⟩
      · rw [hnone] at hd; cases hd
      · rw [hd2] at hd
        cases hd
        rw [hth2]
        simp
  constructor
  · intro ws mr bs tasks cm wsz ful
    constructor
    · rintro ⟨msg, hmsg⟩
      unfold PrecisionSessionMetric_init at hmsg
      by_cases hcm : cm = RecComputeMode.fused_tasks_computation
          ∨ cm = RecComputeMode.fused_tasks_and_states_computation
      · rcases hcm with h | h
        · exact Or.inl h
        · exact Or.inr (Or.inl h)
      · rw [if_neg hcm] at hmsg
        by_cases hful : ful > 0
        · exact Or.inr (Or.inr (Or.inl hful))
        · rw [if_neg hful] at hmsg
          cases hchk : checkSessionTasks tasks with
          | none => rw [hchk] at hmsg; cases hmsg
          | some m =>
            exact Or.inr (Or.inr (Or.inr ((hbad tasks).mp (by rw [hchk]; simp))))
    · intro hcond
      unfold PrecisionSessionMetric_init
      rcases hcond with h1 | h2 | h3 | h4
      · exact ⟨_, by rw [if_pos (Or.inl h1)]⟩
      · exact ⟨_, by rw [if_pos (Or.inr h2)]⟩
      · by_cases hcm : cm = RecComputeMode.fused_tasks_computation
            ∨ cm = RecComputeMode.fused_tasks_and_states_computation
        · exact ⟨_, by rw [if_pos hcm]⟩
        · exact ⟨_, by rw [if_neg hcm, if_pos h3]⟩
      · by_cases hcm : cm = RecComputeMode.fused_tasks_computation
            ∨ cm = RecComputeMode.fused_tasks_and_states_computation
        · exact ⟨_, by rw [if_pos hcm]⟩
        · have hne := (hbad tasks).mpr h4
          cases hchk : checkSessionTasks tasks with
          | none => exact absurd hchk hne
          | some m =>
            by_cases hful : ful > 0
            · exact ⟨_, by rw [if_neg hcm, if_pos hful]⟩
            · refine ⟨m, ?_⟩
              simp only [if_neg hcm, if_neg hful, hchk]
  · intro ws mr bs tasks cm wsz ful hcond
    push_neg at hcond
    obtain ⟨h1, h2, h3, h4⟩ := hcond
    unfold PrecisionSessionMetric_init
    rw [if_neg (by push_neg; exact ⟨h1, h2⟩), if_neg (by omega)]
    cases hchk : checkSessionTasks tasks with
    | none => rfl
    | some m =>
      exfalso
      have := (hbad tasks).mp (by rw [hchk]; simp)
      obtain ⟨t, ht, hcase⟩ := this
      rcases hcase with hnone | ⟨d, hd, hth⟩
      · exact absurd hnone (by
          have := h4 t ht
          exact this.1)
      · have := (h4 t ht).2 d hd
        exact absurd hth (by
          intro hc
          rw [hc] at this
          exact this rfl)

theorem c8_precision_session_validation_witness :
    (PrecisionSessionMetric_init 2 0 16 [witnessTask]
        RecComputeMode.unfused_tasks_computation 100 0
      = .ok { world_size := 2, my_rank := 0, batch_size := 16,
              tasks := [witnessTask],
              compute_mode := RecComputeMode.unfused_tasks_computation,
              window_size := 100, fused_update_limit := 0 })
    ∧ (∃ msg, PrecisionSessionMetric_init 2 0 16 [witnessTask]
        RecComputeMode.fused_tasks_computation 100 0 = .error msg) :=
  ⟨c8_precision_session_validation.2 2 0 16 [witnessTask]
      RecComputeMode.unfused_tasks_computation 100 0 (by
        push_neg
        refine ⟨by decide, by decide, by decide, ?_⟩
        intro t ht
        simp only [List.mem_singleton] at ht
        subst ht
        refine ⟨by simp [witnessTask], ?_⟩
        intro d hd
        simp only [witnessTask, Option.some.injEq] at hd
        subst hd
        simp),
    (c8_precision_session_validation.1 2 0 16 [witnessTask]
      RecComputeMode.fused_tasks_computation 100 0).mpr (Or.inl rfl)⟩

/-- C9: under arbitrary interleaving of the one producer
(`DataLoadingThread.run`, steady state) and the one consumer
(`get_next_batch`), in every reachable state the producer is about to write
the buffer slot only when the slot holds no unconsumed batch and the
buffer-empty event is set, and the consumer is about to take the batch only
when the slot is occupied and the buffer-filled event is set — so the slot
is never overwritten while holding an unconsumed batch. -/

theorem c9_single_slot_handoff (s : DLState) (h : DLReachable s) :
    (s.ppc = ProducerPc.pFillSlot → s.slot_occupied = false ∧ s.buffer_empty = true)
    ∧ (s.cpc = ConsumerPc.cTakeSlot → s.slot_occupied = true ∧ s.buffer_filled = true) := by
  have hmem := dlReachable_good h
  fin_cases hmem <;> simp

/-- Witness for C9: the initial state is reachable; at a state with the
producer about to fill (reached in one step from the initial state), the
slot is free and the empty event is set. -/

theorem c9_single_slot_handoff_witness :
    ({ ppc := ProducerPc.pFillSlot, cpc := ConsumerPc.cWaitFilled,
       buffer_empty := true, buffer_filled := false,
       slot_occupied := false } : DLState).slot_occupied = false ∧
    ({ ppc := ProducerPc.pFillSlot, cpc := ConsumerPc.cWaitFilled,
       buffer_empty := true, buffer_filled := false,
       slot_occupied := false } : DLState).buffer_empty = true :=
  (c9_single_slot_handoff
    { ppc := ProducerPc.pFillSlot, cpc := ConsumerPc.cWaitFilled,
      buffer_empty := true, buffer_filled := false, slot_occupied := false }
    (DLReachable.step DLReachable.init (by decide))).1 rfl
